import Mathlib

/-!
Shallow embedding of the synth program (`src/main.cpp`): the sequencer,
sawtooth oscillator, low-pass filter and the single-producer single-consumer
circular buffer.  Machine floats are modelled as rationals, `int16_t` sample
values as integers, and the float-to-integer conversion as truncation toward
zero.  Sizes and cursors (`size_t`) are natural numbers.
-/

set_option maxRecDepth 8000

/-- `samples_per_sec` constant from the source (44100). -/
def samples_per_sec : ℕ := 44100

/-- `std::clamp(x, lo, hi)` on exact rationals (for `lo ≤ hi`). -/
def clampQ (x lo hi : ℚ) : ℚ := min (max x lo) hi

/-- C++ float-to-integer conversion: truncation toward zero. -/
def truncQ (x : ℚ) : ℤ := if 0 ≤ x then ⌊x⌋ else ⌈x⌉

namespace Synth

/-- `Sequencer::bpm = 138 * 4`. -/
def bpm : ℕ := 138 * 4

/-- `Sequencer::pattern`, the fixed 8-step note table. -/
def patternList : List ℚ := [440, 0, 698.5, 400, 554.4, 698.5, 830.6, 554.4]

/-- `beat_length = 60 * samples_per_sec / bpm`, integer (truncating) division. -/
def beat_length : ℕ := 60 * samples_per_sec / bpm

/-- `pattern_length = beat_length * 8`. -/
def pattern_length : ℕ := beat_length * 8

/-- `Synth::Sequencer` state: the running sample counter. -/
structure Sequencer where
  sample : ℕ
deriving DecidableEq

/-- `Sequencer::tick(count)`: look up the note at the current counter, then
advance the counter by `count` modulo the pattern length. -/
def Sequencer.tick (s : Sequencer) (count : ℕ) : ℚ × Sequencer :=
  (patternList.getD (s.sample / beat_length) 0,
   ⟨(s.sample + count) % pattern_length⟩)

/-- `SawTooth::volume = 0.25`, a constant never written by the program. -/
def volume : ℚ := 1/4

/-- `SHRT_MAX` amplitude scale. -/
def scale : ℚ := 32767

/-- `Synth::SawTooth` state (`volume` is constant, kept as a separate def). -/
structure SawTooth where
  tuning_v : ℚ
  tuning : ℚ
  last : ℚ

/-- The sample loop of `SawTooth::tick`: emit `trunc(value*volume*scale)`,
advance the phase by `delta`, wrap from above 1 by subtracting 2. -/
def sawLoop (delta : ℚ) : ℕ → ℚ → List ℤ × ℚ
  | 0, value => ([], value)
  | Nat.succ n, value =>
    let sample := truncQ (value * volume * scale)
    let v1 := value + delta
    let v2 := if v1 > 1 then v1 - 2 else v1
    let r := sawLoop delta n v2
    (sample :: r.1, r.2)

/-- `SawTooth::tick(note, data, count)`: on a nonzero note, smooth the tuning,
clamp the frequency, derive the phase increment and pre-advance the phase;
on a zero note keep `delta = 0` and start from `last` unchanged. -/
def SawTooth.tick (st : SawTooth) (note : ℚ) (count : ℕ) : List ℤ × SawTooth :=
  if note = 0 then
    let r := sawLoop 0 count st.last
    (r.1, { st with last := r.2 })
  else
    let tuning := clampQ (st.tuning * st.tuning_v) (1/10) 1000
    let freq := clampQ (tuning * note) 10 10000
    let period := (samples_per_sec : ℚ) / freq
    let delta := 2 / period
    let v0 := st.last + delta
    let v1 := if v0 > 1 then v0 - 2 else v0
    let r := sawLoop delta count v1
    (r.1, { tuning_v := st.tuning_v, tuning := tuning, last := r.2 })

/-- `Synth::LowPass` state: the smoothed coefficient and the four stage
accumulators. -/
structure LowPass where
  rc_v : ℚ
  rc : ℚ
  value : Fin 4 → ℚ

/-- One filter stage passed over a block: for each sample,
`acc = clamp(x*rc + acc*(1-rc), SHRT_MIN, SHRT_MAX)` and the sample is
replaced by the truncated accumulator. -/
def lpStage (rc : ℚ) : List ℤ → ℚ → List ℤ × ℚ
  | [], acc => ([], acc)
  | x :: xs, acc =>
    let acc1 := clampQ ((x : ℚ) * rc + acc * (1 - rc)) (-32768) 32767
    let y := truncQ acc1
    let r := lpStage rc xs acc1
    (y :: r.1, r.2)

/-- `LowPass::tick(data, count)`: smooth the coefficient once, then run the
four stages in sequence over the whole block. -/
def LowPass.tick (lp : LowPass) (data : List ℤ) : List ℤ × LowPass :=
  let rc := clampQ (lp.rc * lp.rc_v) 0 1
  let r0 := lpStage rc data (lp.value 0)
  let r1 := lpStage rc r0.1 (lp.value 1)
  let r2 := lpStage rc r1.1 (lp.value 2)
  let r3 := lpStage rc r2.1 (lp.value 3)
  (r3.1, { lp with rc := rc, value := ![r0.2, r1.2, r2.2, r3.2] })

end Synth

/-- Overwrite the slice of `l` starting at `pos` with `vals`, as the in-place
`std::copy(vals.begin(), vals.end(), l.data() + pos)` does for an in-bounds
copy; the outer `take` keeps the backing store's length fixed. -/
def setRange (l : List ℤ) (pos : ℕ) (vals : List ℤ) : List ℤ :=
  (l.take pos ++ vals ++ l.drop (pos + vals.length)).take l.length

/-- `CircularBuffer` state: backing store, write cursor, read cursor and the
first-write flag. -/
structure CircularBuffer where
  samples : List ℤ
  write_a : ℕ
  read_a : ℕ
  first : Bool
deriving DecidableEq

/-- `CircularBuffer(size)`: zero-initialised store, both cursors 0,
`first = true`. -/
def CircularBuffer.init (size : ℕ) : CircularBuffer :=
  { samples := List.replicate size 0, write_a := 0, read_a := 0, first := true }

/-- `CircularBuffer::copy_out(dest, count)`: returns the list of samples
copied to `dest`, the new buffer state, and the shortfall
`count - count_out`. -/
def CircularBuffer.copy_out (b : CircularBuffer) (count : ℕ) :
    List ℤ × CircularBuffer × ℕ :=
  let size := b.samples.length
  let read := b.read_a
  let write := b.write_a
  if read < write then
    let count_out := min count (write - read)
    let dest := (b.samples.drop read).take count_out
    (dest, { b with read_a := (read + count_out) % size }, count - count_out)
  else
    let size1 := min (size - read) count
    let size2 := min (count - size1) write
    let dest := (b.samples.drop read).take size1 ++ b.samples.take size2
    let count_out := size1 + size2
    (dest, { b with read_a := (read + count_out) % size }, count - count_out)

/-- `CircularBuffer::copy_in(src, count)` with `count = src.length`: returns
the new buffer state and the shortfall `count - count_in`. -/
def CircularBuffer.copy_in (b : CircularBuffer) (src : List ℤ) :
    CircularBuffer × ℕ :=
  let size := b.samples.length
  let count := src.length
  let read := b.read_a
  let write := b.write_a
  if b.first then
    let count_in := min count size
    ({ samples := setRange b.samples write (src.take count_in),
       write_a := (write + count_in) % size, read_a := read, first := false },
     count - count_in)
  else if read > write then
    let count_in := min count (read - write)
    ({ b with samples := setRange b.samples write (src.take count_in),
              write_a := (write + count_in) % size },
     count - count_in)
  else if read < write then
    let size1 := min (size - write) count
    let size2 := min (count - size1) read
    let count_in := size1 + size2
    ({ b with
       samples := setRange (setRange b.samples write (src.take size1)) 0
                    ((src.drop size1).take size2),
       write_a := (write + count_in) % size },
     count - count_in)
  else
    ({ b with write_a := (write + 0) % size }, count - 0)

/-- `CircularBuffer::has_space()`: `write_a != read_a`. -/
def CircularBuffer.has_space (b : CircularBuffer) : Bool :=
  b.write_a != b.read_a

/-- An operation on the shared buffer: a producer `copy_in` of a block of
samples or a consumer `copy_out` request for `count` samples. -/
inductive BufOp where
  | inp : List ℤ → BufOp
  | out : ℕ → BufOp

/-- A buffer together with the cumulative number of samples actually written
into it and actually read out of it. -/
structure Trace where
  buf : CircularBuffer
  totalWritten : ℕ
  totalRead : ℕ

/-- Apply one buffer operation, accumulating the samples actually
transferred (request minus shortfall). -/
def Trace.step (t : Trace) (op : BufOp) : Trace :=
  match op with
  | .inp src =>
    let r := t.buf.copy_in src
    { buf := r.1, totalWritten := t.totalWritten + (src.length - r.2),
      totalRead := t.totalRead }
  | .out count =>
    let r := t.buf.copy_out count
    { buf := r.2.1, totalWritten := t.totalWritten,
      totalRead := t.totalRead + (count - r.2.2) }

/-- Run a sequence of interleaved operations from the initial buffer of the
given capacity. -/
def Trace.run (ops : List BufOp) (size : ℕ) : Trace :=
  ops.foldl Trace.step { buf := .init size, totalWritten := 0, totalRead := 0 }

/-- Modelled from the spec (claim C4): "computes available space relative to
`readCursor` (case: reader ahead of writer -> space is the gap; case: writer
ahead or equal -> space wraps around to the reader)". -/
def specSpace (size read write : ℕ) : ℕ :=
  if write < read then read - write else size - write + read

/-- The space actually granted by `copy_in` on a non-first call: the gap when
the reader is strictly ahead, the wrapped-around space when the writer is
strictly ahead, and zero when the cursors are equal. -/
def codeSpace (size read write : ℕ) : ℕ :=
  if write < read then read - write
  else if read < write then size - write + read
  else 0

/-- The invariant tying a buffer to the cumulative totals of its trace:
cursors are the totals reduced modulo the capacity, the first-write flag
implies nothing was written yet, and the producer is at most `size` samples
ahead of the consumer. -/
def TraceInv (size : ℕ) (t : Trace) : Prop :=
  t.buf.samples.length = size ∧
  t.buf.read_a = t.totalRead % size ∧
  t.buf.write_a = t.totalWritten % size ∧
  (t.buf.first = true → t.totalWritten = 0) ∧
  t.totalWritten ≤ t.totalRead + size

/-! ### Helper lemmas -/

lemma setRange_replicate_zero (C : ℕ) (vals : List ℤ) (h : vals.length ≤ C) :
    setRange (List.replicate C (0:ℤ)) 0 vals =
      vals ++ List.replicate (C - vals.length) 0 := by
  unfold setRange
  simp only [List.take_zero, List.nil_append, Nat.zero_add, List.drop_replicate,
    List.length_replicate]
  apply List.take_of_length_le
  simp
  omega

lemma setRange_length (l : List ℤ) (pos : ℕ) (vals : List ℤ) :
    (setRange l pos vals).length = l.length := by
  simp [setRange]
  omega

lemma sawLoop_zero_hold (n : ℕ) (v : ℚ) (h : v ≤ 1) :
    Synth.sawLoop 0 n v =
      (List.replicate n (truncQ (v * Synth.volume * Synth.scale)), v) := by
  induction n with
  | zero => simp [Synth.sawLoop]
  | succ n ih =>
    simp only [Synth.sawLoop, add_zero, List.replicate_succ]
    rw [if_neg (not_lt.mpr h), ih]

/-! ### Claim theorems -/

/-- C2 (counterexample): the claimed `beatLength = 4800` and
`patternLength = 38400` are false for the code's truncating integer division
`60 * 44100 / 552 = 4793`. -/
theorem seq_constants_cex :
    ¬ (Synth.beat_length = 4800 ∧ Synth.pattern_length = 38400) := by
  decide

/-- C2 (amended): with sampleRate 44100 and bpm 552, `beat_length = 4793`
(integer division) and `pattern_length = 38344`; `tick` at counter 0 returns
440, `tick` at counter 4800 returns 0, and advancing by a full
`pattern_length` returns the counter to its original value, so `tick`
reproduces the original note sequence. -/
theorem seq_tick_periodicity (s : ℕ) (h : s < Synth.pattern_length) (c : ℕ) :
    Synth.beat_length = 4793 ∧ Synth.pattern_length = 38344 ∧
    (Synth.Sequencer.tick ⟨0⟩ c).1 = 440 ∧
    (Synth.Sequencer.tick ⟨4800⟩ c).1 = 0 ∧
    (Synth.Sequencer.tick ⟨s⟩ Synth.pattern_length).2 = ⟨s⟩ := by
  refine ⟨by decide, by decide, rfl, rfl, ?_⟩
  simp only [Synth.Sequencer.tick, Nat.add_mod_right, Synth.Sequencer.mk.injEq]
  exact Nat.mod_eq_of_lt h

/-- C2 witness at counter 0. -/
theorem seq_tick_periodicity_witness :
    0 < Synth.pattern_length ∧
    (Synth.beat_length = 4793 ∧ Synth.pattern_length = 38344 ∧
     (Synth.Sequencer.tick ⟨0⟩ 1).1 = 440 ∧
     (Synth.Sequencer.tick ⟨4800⟩ 1).1 = 0 ∧
     (Synth.Sequencer.tick ⟨0⟩ Synth.pattern_length).2 = ⟨0⟩) :=
  ⟨by decide, seq_tick_periodicity 0 (by decide) 1⟩

/-- C10: on a block with `note == 0` the smoothed tuning (and its control
target) is left unchanged: the multiplicative smoothing step runs only on
nonzero-note blocks. -/
theorem saw_tick_silent_tuning_unchanged (st : Synth.SawTooth) (count : ℕ) :
    (st.tick 0 count).2.tuning = st.tuning ∧
    (st.tick 0 count).2.tuning_v = st.tuning_v := by
  simp [Synth.SawTooth.tick]

/-- C6 (counterexample): with `lastValue = 2` (outside the wrapped phase
range) a silent block does not leave `lastValue` unchanged: the in-loop wrap
check fires and rewrites it to 0. -/
theorem saw_hold_cex : (Synth.SawTooth.tick ⟨1, 1, 2⟩ 0 1).2.last ≠ 2 := by
  norm_num [Synth.SawTooth.tick, Synth.sawLoop]

/-- C6 (amended): for every block length and every oscillator state with
`lastValue ≤ 1`, a `tick` with `note == 0` writes the constant sample
`trunc(lastValue * volume * SHRT_MAX)` into all positions and leaves the
whole state (in particular `lastValue`) unchanged: the waveform holds rather
than decaying to silence. -/
theorem saw_tick_silent_hold (st : Synth.SawTooth) (count : ℕ)
    (h : st.last ≤ 1) :
    st.tick 0 count =
      (List.replicate count (truncQ (st.last * Synth.volume * Synth.scale)),
       st) := by
  simp [Synth.SawTooth.tick, sawLoop_zero_hold count st.last h]

/-- C6 witness: a silent two-sample block from `lastValue = 1/2`. -/
theorem saw_tick_silent_hold_witness :
    ((1:ℚ)/2 ≤ 1) ∧
    Synth.SawTooth.tick ⟨1, 1, 1/2⟩ 0 2 =
      (List.replicate 2 (truncQ ((1:ℚ)/2 * Synth.volume * Synth.scale)),
       ⟨1, 1, 1/2⟩) :=
  ⟨by norm_num, saw_tick_silent_hold ⟨1, 1, 1/2⟩ 2 (by norm_num)⟩

/-- C9: a first `copy_in` whose requested count exceeds the capacity is
silently truncated to exactly `capacity` samples: the stores replace the
backing array starting at offset 0 (its length is unchanged, so nothing
lands out of bounds), the shortfall is `count - capacity`, the write cursor
wraps to 0, and the amount written does not exceed the headroom
`totalRead + capacity`. -/
theorem copy_in_first_overflow (C : ℕ) (src : List ℤ)
    (h : C < src.length) :
    ((CircularBuffer.init C).copy_in src).2 = src.length - C ∧
    ((CircularBuffer.init C).copy_in src).1.samples = src.take C ∧
    ((CircularBuffer.init C).copy_in src).1.samples.length = C ∧
    ((CircularBuffer.init C).copy_in src).1.write_a = 0 ∧
    src.length - ((CircularBuffer.init C).copy_in src).2 ≤ 0 + C := by
  have hmin : min src.length C = C := min_eq_right h.le
  have hsr := setRange_replicate_zero C (src.take C) (by simp)
  simp only [CircularBuffer.copy_in, CircularBuffer.init, List.length_replicate,
    if_pos, hmin, ite_true, hsr]
  simp [hmin, hsr, Nat.mod_self]
  omega

/-- C9 witness: capacity 2, first write of 3 samples. -/
theorem copy_in_first_overflow_witness :
    2 < ([1, 2, 3] : List ℤ).length ∧
    (((CircularBuffer.init 2).copy_in [1, 2, 3]).2
        = ([1, 2, 3] : List ℤ).length - 2 ∧
     ((CircularBuffer.init 2).copy_in [1, 2, 3]).1.samples
        = ([1, 2, 3] : List ℤ).take 2 ∧
     ((CircularBuffer.init 2).copy_in [1, 2, 3]).1.samples.length = 2 ∧
     ((CircularBuffer.init 2).copy_in [1, 2, 3]).1.write_a = 0 ∧
     ([1, 2, 3] : List ℤ).length
        - ((CircularBuffer.init 2).copy_in [1, 2, 3]).2 ≤ 0 + 2) :=
  ⟨by decide, copy_in_first_overflow 2 [1, 2, 3] (by decide)⟩

lemma copy_in_init (C : ℕ) (src : List ℤ) (h : src.length ≤ C) :
    (CircularBuffer.init C).copy_in src =
      ({ samples := src ++ List.replicate (C - src.length) 0,
         write_a := src.length % C, read_a := 0, first := false }, 0) := by
  have hmin : min src.length C = src.length := min_eq_left h
  simp [CircularBuffer.copy_in, CircularBuffer.init, hmin,
    setRange_replicate_zero C src h]

lemma first_write_roundtrip (C : ℕ) (src : List ℤ) (h : src.length ≤ C) :
    ((CircularBuffer.init C).copy_in src).2 = 0 ∧
    (((CircularBuffer.init C).copy_in src).1.copy_out src.length).1 = src ∧
    (((CircularBuffer.init C).copy_in src).1.copy_out src.length).2.2 = 0 ∧
    (((CircularBuffer.init C).copy_in src).1.copy_out src.length).2.1.read_a
      = src.length % C ∧
    (((CircularBuffer.init C).copy_in src).1.copy_out src.length).2.1.write_a
      = src.length % C := by
  rw [copy_in_init C src h]
  refine ⟨rfl, ?_⟩
  have hlen : (src ++ List.replicate (C - src.length) (0:ℤ)).length = C := by
    simp; omega
  rcases lt_or_eq_of_le h with hL | hL
  · have hmod : src.length % C = src.length := Nat.mod_eq_of_lt hL
    rcases Nat.eq_zero_or_pos src.length with h0 | h0
    · have hsrc : src = [] := List.eq_nil_of_length_eq_zero h0
      subst hsrc
      simp [CircularBuffer.copy_out, hlen]
    · simp only [CircularBuffer.copy_out, hlen]
      rw [if_pos (show (0:ℕ) < src.length % C by omega)]
      have htake : (src ++ List.replicate (C - src.length) (0:ℤ)).take
          src.length = src := by
        simpa using
          List.take_left src (List.replicate (C - src.length) (0:ℤ))
      simp [hmod, htake]
  · subst hL
    simp [CircularBuffer.copy_out, Nat.mod_self, hlen, List.take_length]

/-- C5: a first write of `L ≤ C` samples immediately followed by a read of
`L` samples returns exactly the written samples in order, with shortfall 0
on both calls. -/
theorem write_read_roundtrip (C : ℕ) (src : List ℤ) (h : src.length ≤ C) :
    ((CircularBuffer.init C).copy_in src).2 = 0 ∧
    (((CircularBuffer.init C).copy_in src).1.copy_out src.length).2.2 = 0 ∧
    (((CircularBuffer.init C).copy_in src).1.copy_out src.length).1 = src := by
  obtain ⟨h1, h2, h3, -, -⟩ := first_write_roundtrip C src h
  exact ⟨h1, h3, h2⟩

/-- C5 witness: capacity 4, three samples. -/
theorem write_read_roundtrip_witness :
    ([1, 2, 3] : List ℤ).length ≤ 4 ∧
    (((CircularBuffer.init 4).copy_in [1, 2, 3]).2 = 0 ∧
     (((CircularBuffer.init 4).copy_in [1, 2, 3]).1.copy_out
        ([1, 2, 3] : List ℤ).length).2.2 = 0 ∧
     (((CircularBuffer.init 4).copy_in [1, 2, 3]).1.copy_out
        ([1, 2, 3] : List ℤ).length).1 = [1, 2, 3]) :=
  ⟨by decide, write_read_roundtrip 4 [1, 2, 3] (by decide)⟩

/-- C3 (counterexample): in the concrete capacity-2048 scenario, after the
first write of 1024 samples and the read of 1024 samples both cursors equal
1024, so `has_space()` is false - not true as claimed. -/
theorem buffer_scenario_cex :
    ¬ ((((CircularBuffer.init 2048).copy_in
        (List.replicate 1024 (5:ℤ))).1.copy_out 1024).2.1.has_space = true) := by
  have h := first_write_roundtrip 2048 (List.replicate 1024 (5:ℤ)) (by simp)
  simp only [List.length_replicate] at h
  obtain ⟨-, -, -, hr, hw⟩ := h
  unfold CircularBuffer.has_space
  rw [hr, hw]
  simp

/-- C3 (amended): on a capacity-2048 buffer in its initial state,
`write(scratch, 1024)` returns shortfall 0; the subsequent `read(dest, 1024)`
copies out exactly the 1024 samples just written, in order, with shortfall 0;
but `has_space()` is `false` immediately after that read, because the read
leaves both cursors equal (the full/empty states are indistinguishable). -/
theorem buffer_scenario (src : List ℤ) (h : src.length = 1024) :
    ((CircularBuffer.init 2048).copy_in src).2 = 0 ∧
    (((CircularBuffer.init 2048).copy_in src).1.copy_out 1024).1 = src ∧
    (((CircularBuffer.init 2048).copy_in src).1.copy_out 1024).2.2 = 0 ∧
    (((CircularBuffer.init 2048).copy_in src).1.copy_out 1024).2.1.has_space
      = false := by
  have h2 := first_write_roundtrip 2048 src (by omega)
  rw [h] at h2
  obtain ⟨h1, hdest, hshort, hr, hw⟩ := h2
  exact ⟨h1, hdest, hshort, by simp [CircularBuffer.has_space, hr, hw]⟩

/-- C3 witness: scratch block of 1024 equal samples. -/
theorem buffer_scenario_witness :
    (List.replicate 1024 (5:ℤ)).length = 1024 ∧
    (((CircularBuffer.init 2048).copy_in (List.replicate 1024 (5:ℤ))).2 = 0 ∧
     (((CircularBuffer.init 2048).copy_in
        (List.replicate 1024 (5:ℤ))).1.copy_out 1024).1
        = List.replicate 1024 (5:ℤ) ∧
     (((CircularBuffer.init 2048).copy_in
        (List.replicate 1024 (5:ℤ))).1.copy_out 1024).2.2 = 0 ∧
     (((CircularBuffer.init 2048).copy_in
        (List.replicate 1024 (5:ℤ))).1.copy_out 1024).2.1.has_space = false) :=
  ⟨by simp, buffer_scenario (List.replicate 1024 (5:ℤ)) (by simp)⟩

lemma setRange_eq_of_le (l : List ℤ) (pos : ℕ) (vals : List ℤ)
    (hb : pos + vals.length ≤ l.length) :
    setRange l pos vals = l.take pos ++ vals ++ l.drop (pos + vals.length) := by
  unfold setRange
  apply List.take_of_length_le
  simp
  omega

lemma getD_take_lt (l : List ℤ) (n j : ℕ) (h : j < n) (d : ℤ) :
    (l.take n).getD j d = l.getD j d := by
  rw [List.getD_eq_getElem?_getD, List.getD_eq_getElem?_getD,
    List.getElem?_take, if_pos h]

lemma getD_drop_add (l : List ℤ) (n m : ℕ) (d : ℤ) :
    (l.drop n).getD m d = l.getD (n + m) d := by
  rw [List.getD_eq_getElem?_getD, List.getD_eq_getElem?_getD,
    List.getElem?_drop]

lemma setRange_getD (l : List ℤ) (pos : ℕ) (vals : List ℤ) (j : ℕ)
    (hj : j < vals.length) (hb : pos + vals.length ≤ l.length) :
    (setRange l pos vals).getD (pos + j) 0 = vals.getD j 0 := by
  have hpos : pos ≤ l.length := by omega
  rw [setRange_eq_of_le l pos vals hb, List.append_assoc]
  rw [List.getD_eq_getElem?_getD, List.getD_eq_getElem?_getD]
  rw [List.getElem?_append_right (by simp [min_eq_left hpos])]
  simp only [List.length_take, min_eq_left hpos, Nat.add_sub_cancel_left]
  rw [List.getElem?_append, if_pos hj]

lemma setRange_zero_getD_of_ge (l vals : List ℤ) (i : ℕ)
    (hge : vals.length ≤ i) (hlt : i < l.length) :
    (setRange l 0 vals).getD i 0 = l.getD i 0 := by
  rw [setRange_eq_of_le l 0 vals (by omega)]
  simp only [List.take_zero, List.nil_append, Nat.zero_add]
  rw [List.getD_eq_getElem?_getD, List.getD_eq_getElem?_getD,
    List.getElem?_append_right hge, List.getElem?_drop]
  have hidx : vals.length + (i - vals.length) = i := by omega
  rw [hidx]

lemma copy_in_placement (b : CircularBuffer) (src : List ℤ)
    (hf : b.first = false) (hr : b.read_a < b.samples.length)
    (hw : b.write_a < b.samples.length) :
    ∀ j < min src.length (codeSpace b.samples.length b.read_a b.write_a),
      (b.copy_in src).1.samples.getD ((b.write_a + j) % b.samples.length) 0
        = src.getD j 0 := by
  intro j hj
  rcases lt_trichotomy b.read_a b.write_a with hlt | heq | hgt
  · -- writer strictly ahead: split across the wrap point
    have hcs : codeSpace b.samples.length b.read_a b.write_a
        = b.samples.length - b.write_a + b.read_a := by
      simp [codeSpace, hlt, not_lt.mpr hlt.le]
    rw [hcs] at hj
    simp only [CircularBuffer.copy_in, hf, Bool.false_eq_true, if_false,
      if_neg (not_lt.mpr hlt.le), if_pos hlt]
    set s1 := min (b.samples.length - b.write_a) src.length with hs1
    set s2 := min (src.length - s1) b.read_a with hs2
    have hlen1 : (src.take s1).length = s1 := by
      simp [List.length_take]
      omega
    have hlen2 : ((src.drop s1).take s2).length = s2 := by
      simp [List.length_take, List.length_drop]
      omega
    have hinlen : (setRange b.samples b.write_a (src.take s1)).length
        = b.samples.length := setRange_length _ _ _
    by_cases hj1 : j < s1
    · have hpos : b.write_a + j < b.samples.length := by omega
      rw [Nat.mod_eq_of_lt hpos]
      rw [setRange_zero_getD_of_ge _ _ _ (by omega) (by omega)]
      have := setRange_getD b.samples b.write_a (src.take s1) j
        (by omega) (by omega)
      rw [this, getD_take_lt _ _ _ hj1]
    · -- wrapped part: lands at the front of the buffer
      have hs1' : s1 = b.samples.length - b.write_a := by omega
      have hidx : b.write_a + j = b.samples.length + (j - s1) := by omega
      rw [hidx, Nat.add_mod_left, Nat.mod_eq_of_lt (by omega)]
      have h0 := setRange_getD
        (setRange b.samples b.write_a (src.take s1)) 0
        ((src.drop s1).take s2) (j - s1) (by omega) (by omega)
      rw [Nat.zero_add] at h0
      rw [h0, getD_take_lt _ _ _ (by omega), getD_drop_add]
      congr 1
      omega
  · have hcs : codeSpace b.samples.length b.read_a b.write_a = 0 := by
      simp [codeSpace, heq]
    rw [hcs] at hj
    omega
  · -- reader strictly ahead: plain gap, no wrap
    have hcs : codeSpace b.samples.length b.read_a b.write_a
        = b.read_a - b.write_a := by
      simp [codeSpace, hgt]
    rw [hcs] at hj
    simp only [CircularBuffer.copy_in, hf, Bool.false_eq_true, if_false,
      if_pos hgt]
    have hpos : b.write_a + j < b.samples.length := by omega
    rw [Nat.mod_eq_of_lt hpos]
    have := setRange_getD b.samples b.write_a
      (src.take (min src.length (b.read_a - b.write_a))) j
      (by simp [List.length_take]; omega) (by simp [List.length_take]; omega)
    rw [this, getD_take_lt _ _ _ (by omega)]

/-- C4 (counterexample): after a first write that fills a capacity-2 buffer,
both cursors are 0 with `first == false`; the spec's space rule ("writer
ahead of or equal to the reader -> space wraps around to the reader") would
grant space 2 and predict shortfall 0 for a 1-sample write, but the code
grants no space and returns shortfall 1. -/
theorem copy_in_space_cex :
    ((CircularBuffer.init 2).copy_in [5, 5]).1.first = false ∧
    (((CircularBuffer.init 2).copy_in [5, 5]).1.copy_in [7]).2 ≠
      ([7] : List ℤ).length -
        min ([7] : List ℤ).length
          (specSpace (((CircularBuffer.init 2).copy_in [5, 5]).1.samples.length)
            (((CircularBuffer.init 2).copy_in [5, 5]).1.read_a)
            (((CircularBuffer.init 2).copy_in [5, 5]).1.write_a)) := by
  decide

/-- C4 (amended): on every non-first call, `copy_in` grants
`min(count, space)` where space is the gap `read - write` when the reader is
strictly ahead, wraps around the end of the buffer to the reader
(`size - write + read`) when the writer is strictly ahead, and is zero when
the cursors are equal (buffer treated as full); the write cursor advances by
the amount copied modulo the capacity, the read cursor is untouched, and the
uncopied remainder is returned; the copy is split across the wrap point: for
cursors within the capacity, the j-th copied sample lands at buffer index
`(write + j) % capacity`. -/
theorem copy_in_space_characterization (b : CircularBuffer) (src : List ℤ)
    (hf : b.first = false) :
    (b.copy_in src).2 =
      src.length -
        min src.length (codeSpace b.samples.length b.read_a b.write_a) ∧
    (b.copy_in src).1.write_a =
      (b.write_a +
        min src.length (codeSpace b.samples.length b.read_a b.write_a))
        % b.samples.length ∧
    (b.copy_in src).1.read_a = b.read_a ∧
    (b.read_a < b.samples.length → b.write_a < b.samples.length →
      ∀ j < min src.length (codeSpace b.samples.length b.read_a b.write_a),
        (b.copy_in src).1.samples.getD
            ((b.write_a + j) % b.samples.length) 0 = src.getD j 0) := by
  have h1 : (b.copy_in src).2 =
      src.length -
        min src.length (codeSpace b.samples.length b.read_a b.write_a) := by
    rcases lt_trichotomy b.read_a b.write_a with hlt | heq | hgt
    · simp only [CircularBuffer.copy_in, codeSpace, hf, Bool.false_eq_true,
        if_false, if_neg (not_lt.mpr hlt.le), if_pos hlt]
      omega
    · simp only [CircularBuffer.copy_in, codeSpace, hf, Bool.false_eq_true,
        if_false, heq, lt_self_iff_false, if_neg (lt_irrefl b.write_a)]
      simp
    · simp only [CircularBuffer.copy_in, codeSpace, hf, Bool.false_eq_true,
        if_false, if_pos hgt]
  have h2 : (b.copy_in src).1.write_a =
      (b.write_a +
        min src.length (codeSpace b.samples.length b.read_a b.write_a))
        % b.samples.length := by
    rcases lt_trichotomy b.read_a b.write_a with hlt | heq | hgt
    · simp only [CircularBuffer.copy_in, codeSpace, hf, Bool.false_eq_true,
        if_false, if_neg (not_lt.mpr hlt.le), if_pos hlt]
      congr 1
      omega
    · simp only [CircularBuffer.copy_in, codeSpace, hf, Bool.false_eq_true,
        if_false, heq, lt_self_iff_false, if_neg (lt_irrefl b.write_a)]
      simp
    · simp only [CircularBuffer.copy_in, codeSpace, hf, Bool.false_eq_true,
        if_false, if_pos hgt]
  have h3 : (b.copy_in src).1.read_a = b.read_a := by
    rcases lt_trichotomy b.read_a b.write_a with hlt | heq | hgt
    · simp only [CircularBuffer.copy_in, codeSpace, hf, Bool.false_eq_true,
        if_false, if_neg (not_lt.mpr hlt.le), if_pos hlt]
    · simp only [CircularBuffer.copy_in, codeSpace, hf, Bool.false_eq_true,
        if_false, heq, lt_self_iff_false, if_neg (lt_irrefl b.write_a)]
    · simp only [CircularBuffer.copy_in, codeSpace, hf, Bool.false_eq_true,
        if_false, if_pos hgt]
  exact ⟨h1, h2, h3, fun u v => copy_in_placement b src hf u v⟩

/-- C4 witness: a wrap-around write of two samples on a capacity-4 buffer
with the writer strictly ahead of the reader. -/
theorem copy_in_space_characterization_witness :
    (⟨[5, 5, 5, 5], 3, 2, false⟩ : CircularBuffer).first = false ∧
    (((⟨[5, 5, 5, 5], 3, 2, false⟩ : CircularBuffer).copy_in [7, 8]).2 =
      ([7, 8] : List ℤ).length -
        min ([7, 8] : List ℤ).length
          (codeSpace (⟨[5, 5, 5, 5], 3, 2, false⟩ : CircularBuffer).samples.length
            (⟨[5, 5, 5, 5], 3, 2, false⟩ : CircularBuffer).read_a
            (⟨[5, 5, 5, 5], 3, 2, false⟩ : CircularBuffer).write_a) ∧
     ((⟨[5, 5, 5, 5], 3, 2, false⟩ : CircularBuffer).copy_in [7, 8]).1.write_a =
      ((⟨[5, 5, 5, 5], 3, 2, false⟩ : CircularBuffer).write_a +
        min ([7, 8] : List ℤ).length
          (codeSpace (⟨[5, 5, 5, 5], 3, 2, false⟩ : CircularBuffer).samples.length
            (⟨[5, 5, 5, 5], 3, 2, false⟩ : CircularBuffer).read_a
            (⟨[5, 5, 5, 5], 3, 2, false⟩ : CircularBuffer).write_a))
        % (⟨[5, 5, 5, 5], 3, 2, false⟩ : CircularBuffer).samples.length ∧
     ((⟨[5, 5, 5, 5], 3, 2, false⟩ : CircularBuffer).copy_in [7, 8]).1.read_a =
      (⟨[5, 5, 5, 5], 3, 2, false⟩ : CircularBuffer).read_a ∧
     ((⟨[5, 5, 5, 5], 3, 2, false⟩ : CircularBuffer).read_a < (⟨[5, 5, 5, 5], 3, 2, false⟩ : CircularBuffer).samples.length →
      (⟨[5, 5, 5, 5], 3, 2, false⟩ : CircularBuffer).write_a < (⟨[5, 5, 5, 5], 3, 2, false⟩ : CircularBuffer).samples.length →
      ∀ j < min ([7, 8] : List ℤ).length
          (codeSpace (⟨[5, 5, 5, 5], 3, 2, false⟩ : CircularBuffer).samples.length
            (⟨[5, 5, 5, 5], 3, 2, false⟩ : CircularBuffer).read_a
            (⟨[5, 5, 5, 5], 3, 2, false⟩ : CircularBuffer).write_a),
        ((⟨[5, 5, 5, 5], 3, 2, false⟩ : CircularBuffer).copy_in [7, 8]).1.samples.getD
            (((⟨[5, 5, 5, 5], 3, 2, false⟩ : CircularBuffer).write_a + j) %
              (⟨[5, 5, 5, 5], 3, 2, false⟩ : CircularBuffer).samples.length) 0
          = ([7, 8] : List ℤ).getD j 0)) :=
  ⟨rfl, copy_in_space_characterization ⟨[5, 5, 5, 5], 3, 2, false⟩ [7, 8] rfl⟩

lemma clampQ_mem (x lo hi : ℚ) (h : lo ≤ hi) :
    lo ≤ clampQ x lo hi ∧ clampQ x lo hi ≤ hi :=
  ⟨le_min (le_max_right x lo) h, min_le_right _ _⟩

lemma truncQ_bounds (q : ℚ) (h1 : -32768 ≤ q) (h2 : q ≤ 32767) :
    -32768 ≤ truncQ q ∧ truncQ q ≤ 32767 := by
  unfold truncQ
  split
  case isTrue h =>
    have h0 : (0 : ℤ) ≤ ⌊q⌋ := Int.le_floor.mpr (by exact_mod_cast h)
    have hf := Int.floor_mono (show q ≤ ((32767 : ℤ) : ℚ) by exact_mod_cast h2)
    rw [Int.floor_intCast] at hf
    omega
  case isFalse h =>
    have hc := Int.ceil_mono
      (show ((-32768 : ℤ) : ℚ) ≤ q by exact_mod_cast h1)
    rw [Int.ceil_intCast] at hc
    have h0 : ⌈q⌉ ≤ ⌈(0 : ℚ)⌉ := Int.ceil_mono (le_of_lt (lt_of_not_le h))
    rw [Int.ceil_zero] at h0
    omega

lemma lpStage_bounds (rc : ℚ) (data : List ℤ) (acc : ℚ)
    (hacc : -32768 ≤ acc ∧ acc ≤ 32767) :
    (∀ y ∈ (Synth.lpStage rc data acc).1, -32768 ≤ y ∧ y ≤ 32767) ∧
    (-32768 ≤ (Synth.lpStage rc data acc).2 ∧
     (Synth.lpStage rc data acc).2 ≤ 32767) := by
  induction data generalizing acc with
  | nil => simpa [Synth.lpStage] using hacc
  | cons x xs ih =>
    have hcl := clampQ_mem ((x : ℚ) * rc + acc * (1 - rc)) (-32768) 32767
      (by norm_num)
    have htr := truncQ_bounds _ hcl.1 hcl.2
    have htail := ih _ hcl
    simp only [Synth.lpStage, List.mem_cons]
    exact ⟨fun y hy => by rcases hy with rfl | hy
                          · exact htr
                          · exact htail.1 y hy,
           htail.2⟩

/-- C7: for every cutoff target, every input block and every filter state
whose four stage accumulators are within the signed 16-bit sample range, a
`LowPass::tick` produces output samples within the signed 16-bit bounds and
leaves each of the four accumulators within that range (the per-sample clamp
enforces both). -/
theorem lowpass_tick_bounds (lp : Synth.LowPass) (data : List ℤ)
    (hacc : ∀ j : Fin 4, -32768 ≤ lp.value j ∧ lp.value j ≤ 32767) :
    (∀ y ∈ (lp.tick data).1, -32768 ≤ y ∧ y ≤ 32767) ∧
    (∀ j : Fin 4,
      -32768 ≤ (lp.tick data).2.value j ∧ (lp.tick data).2.value j ≤ 32767) := by
  simp only [Synth.LowPass.tick]
  have h0 := lpStage_bounds (clampQ (lp.rc * lp.rc_v) 0 1) data
    (lp.value 0) (hacc 0)
  have h1 := lpStage_bounds (clampQ (lp.rc * lp.rc_v) 0 1)
    (Synth.lpStage (clampQ (lp.rc * lp.rc_v) 0 1) data (lp.value 0)).1
    (lp.value 1) (hacc 1)
  have h2 := lpStage_bounds (clampQ (lp.rc * lp.rc_v) 0 1)
    (Synth.lpStage (clampQ (lp.rc * lp.rc_v) 0 1)
      (Synth.lpStage (clampQ (lp.rc * lp.rc_v) 0 1) data (lp.value 0)).1
      (lp.value 1)).1
    (lp.value 2) (hacc 2)
  have h3 := lpStage_bounds (clampQ (lp.rc * lp.rc_v) 0 1)
    (Synth.lpStage (clampQ (lp.rc * lp.rc_v) 0 1)
      (Synth.lpStage (clampQ (lp.rc * lp.rc_v) 0 1)
        (Synth.lpStage (clampQ (lp.rc * lp.rc_v) 0 1) data (lp.value 0)).1
        (lp.value 1)).1
      (lp.value 2)).1
    (lp.value 3) (hacc 3)
  refine ⟨h3.1, ?_⟩
  intro j
  fin_cases j
  · simpa using h0.2
  · simpa using h1.2
  · simpa using h2.2
  · simpa using h3.2

/-- C7 witness: zero accumulators, coefficient target 1, an out-of-range
input block. -/
theorem lowpass_tick_bounds_witness :
    (∀ j : Fin 4,
      -32768 ≤ (⟨1, 1/2, fun _ => 0⟩ : Synth.LowPass).value j ∧
      (⟨1, 1/2, fun _ => 0⟩ : Synth.LowPass).value j ≤ 32767) ∧
    ((∀ y ∈ ((⟨1, 1/2, fun _ => 0⟩ : Synth.LowPass).tick [40000, -40000]).1,
        -32768 ≤ y ∧ y ≤ 32767) ∧
     (∀ j : Fin 4,
       -32768 ≤ ((⟨1, 1/2, fun _ => 0⟩ : Synth.LowPass).tick
          [40000, -40000]).2.value j ∧
       ((⟨1, 1/2, fun _ => 0⟩ : Synth.LowPass).tick
          [40000, -40000]).2.value j ≤ 32767)) :=
  ⟨fun j => by norm_num,
   lowpass_tick_bounds ⟨1, 1/2, fun _ => 0⟩ [40000, -40000]
     (fun j => by norm_num)⟩

lemma sawLoop_bounds (delta : ℚ) (n : ℕ) (v : ℚ)
    (hd0 : 0 < delta) (hd2 : delta < 2) (hv1 : -1 < v) (hv2 : v ≤ 1) :
    ∀ x ∈ (Synth.sawLoop delta n v).1, -32768 ≤ x ∧ x ≤ 32767 := by
  induction n generalizing v with
  | zero => simp [Synth.sawLoop]
  | succ n ih =>
    intro x hx
    simp only [Synth.sawLoop, List.mem_cons] at hx
    have hs1 : -32768 ≤ v * Synth.volume * Synth.scale := by
      unfold Synth.volume Synth.scale
      nlinarith
    have hs2 : v * Synth.volume * Synth.scale ≤ 32767 := by
      unfold Synth.volume Synth.scale
      nlinarith
    rcases hx with rfl | hx
    · exact truncQ_bounds _ hs1 hs2
    · by_cases hgt : v + delta > 1
      · rw [if_pos hgt] at hx
        exact ih (v + delta - 2) (by linarith) (by linarith) x hx
      · rw [if_neg hgt] at hx
        exact ih (v + delta) (by linarith) (by linarith) x hx

/-- C8: for every tuning target in [0.1, 1000], every note from the fixed
8-step pattern and every oscillator state with `lastValue` in the wrapped
phase range [-1, 1], all samples written by `SawTooth::tick` stay within the
signed 16-bit amplitude bounds. -/
theorem saw_tick_bounds (st : Synth.SawTooth) (note : ℚ) (count : ℕ)
    (htv : 1/10 ≤ st.tuning_v ∧ st.tuning_v ≤ 1000)
    (hnote : note ∈ Synth.patternList)
    (hlast1 : -1 ≤ st.last) (hlast2 : st.last ≤ 1) :
    ∀ x ∈ (st.tick note count).1, -32768 ≤ x ∧ x ≤ 32767 := by
  by_cases h0 : note = 0
  · subst h0
    simp only [Synth.SawTooth.tick, if_pos rfl,
      sawLoop_zero_hold count st.last hlast2]
    intro x hx
    have hx2 := List.eq_of_mem_replicate hx
    subst hx2
    refine truncQ_bounds _ ?_ ?_ <;>
      · unfold Synth.volume Synth.scale
        nlinarith
  · simp only [Synth.SawTooth.tick, if_neg h0]
    set t := clampQ (st.tuning * st.tuning_v) (1/10) 1000 with ht
    set f := clampQ (t * note) 10 10000 with hf2
    have hfb := clampQ_mem (t * note) 10 10000 (by norm_num)
    rw [← hf2] at hfb
    set d := 2 / ((samples_per_sec : ℚ) / f) with hd
    have hdeq : d = 2 * f / 44100 := by
      rw [hd, div_div_eq_mul_div]
      norm_num [samples_per_sec]
    have hd0 : 0 < d := by
      rw [hdeq]
      apply div_pos
      · linarith [hfb.1]
      · norm_num
    have hd2 : d < 2 := by
      rw [hdeq, div_lt_iff₀ (by norm_num : (0:ℚ) < 44100)]
      linarith [hfb.2]
    by_cases hgt : st.last + d > 1
    · rw [if_pos hgt]
      exact sawLoop_bounds d count _ hd0 hd2 (by linarith) (by linarith)
    · rw [if_neg hgt]
      exact sawLoop_bounds d count _ hd0 hd2 (by linarith) (by linarith)

/-- C8 witness: unit tuning target, note 440, phase 0, three samples. -/
theorem saw_tick_bounds_witness :
    ((1:ℚ)/10 ≤ 1 ∧ (1:ℚ) ≤ 1000) ∧ (440:ℚ) ∈ Synth.patternList ∧
    (-1 ≤ (0:ℚ)) ∧ ((0:ℚ) ≤ 1) ∧
    (∀ x ∈ (Synth.SawTooth.tick ⟨1, 1, 0⟩ 440 3).1,
      -32768 ≤ x ∧ x ≤ 32767) :=
  ⟨⟨by norm_num, by norm_num⟩, by simp [Synth.patternList], by norm_num,
   by norm_num,
   saw_tick_bounds ⟨1, 1, 0⟩ 440 3 ⟨by norm_num, by norm_num⟩
     (by simp [Synth.patternList]) (by norm_num) (by norm_num)⟩

lemma copy_out_facts (b : CircularBuffer) (count : ℕ) :
    ∃ k, k ≤ count ∧
      (b.copy_out count).2.2 = count - k ∧
      (b.copy_out count).2.1.samples = b.samples ∧
      (b.copy_out count).2.1.read_a = (b.read_a + k) % b.samples.length ∧
      (b.copy_out count).2.1.write_a = b.write_a ∧
      (b.copy_out count).2.1.first = b.first := by
  by_cases hlt : b.read_a < b.write_a
  · exact ⟨min count (b.write_a - b.read_a), min_le_left _ _,
      by simp [CircularBuffer.copy_out, hlt]⟩
  · refine ⟨min (b.samples.length - b.read_a) count +
        min (count - min (b.samples.length - b.read_a) count) b.write_a,
      by omega, ?_⟩
    simp [CircularBuffer.copy_out, hlt]

lemma copy_in_facts (b : CircularBuffer) (src : List ℤ) :
    ∃ k, k ≤ src.length ∧
      (b.copy_in src).2 = src.length - k ∧
      (b.copy_in src).1.samples.length = b.samples.length ∧
      (b.copy_in src).1.write_a = (b.write_a + k) % b.samples.length ∧
      (b.copy_in src).1.read_a = b.read_a ∧
      (b.copy_in src).1.first = false ∧
      (b.first = true → k ≤ b.samples.length) ∧
      (b.first = false → b.read_a < b.write_a →
        k ≤ b.samples.length - b.write_a + b.read_a) ∧
      (b.first = false → b.write_a < b.read_a → k ≤ b.read_a - b.write_a) ∧
      (b.first = false → b.read_a = b.write_a → k = 0) := by
  by_cases hfi : b.first = true
  · refine ⟨min src.length b.samples.length, min_le_left _ _, ?_⟩
    simp [CircularBuffer.copy_in, hfi, setRange_length]
  · have hfi' : b.first = false := by simp at hfi; exact hfi
    by_cases hgt : b.read_a > b.write_a
    · refine ⟨min src.length (b.read_a - b.write_a), min_le_left _ _, ?_⟩
      simp [CircularBuffer.copy_in, hfi', hgt, setRange_length]
      omega
    · by_cases hlt : b.read_a < b.write_a
      · refine ⟨min (b.samples.length - b.write_a) src.length +
            min (src.length - min (b.samples.length - b.write_a) src.length)
              b.read_a,
          by omega, ?_⟩
        simp [CircularBuffer.copy_in, hfi', hgt, hlt, setRange_length]
        omega
      · refine ⟨0, Nat.zero_le _, ?_⟩
        simp [CircularBuffer.copy_in, hfi', hgt, hlt]

lemma writer_bound_gap (size tw tr k : ℕ) (hs : 0 < size)
    (hb : tw ≤ tr + size) (hwr : tw % size < tr % size)
    (hk : k ≤ tr % size - tw % size) : tw + k ≤ tr + size := by
  have h1 : size * (tr / size) + tr % size = tr := Nat.div_add_mod tr size
  have h2 : size * (tw / size) + tw % size = tw := Nat.div_add_mod tw size
  have hrlt : tr % size < size := Nat.mod_lt _ hs
  have hmul : size * (tw / size) < size * (tr / size + 2) := by
    have : size * (tr / size + 2) = size * (tr / size) + size + size := by ring
    omega
  have hba : tw / size < tr / size + 2 := Nat.lt_of_mul_lt_mul_left hmul
  have hmul2 : size * (tw / size) ≤ size * (tr / size + 1) :=
    Nat.mul_le_mul_left size (by omega)
  have : size * (tr / size + 1) = size * (tr / size) + size := by ring
  omega

lemma writer_bound_wrap (size tw tr k : ℕ) (hs : 0 < size)
    (hb : tw ≤ tr + size) (hrw : tr % size < tw % size)
    (hk : k ≤ size - tw % size + tr % size) : tw + k ≤ tr + size := by
  have h1 : size * (tr / size) + tr % size = tr := Nat.div_add_mod tr size
  have h2 : size * (tw / size) + tw % size = tw := Nat.div_add_mod tw size
  have hwlt : tw % size < size := Nat.mod_lt _ hs
  have hrlt : tr % size < size := Nat.mod_lt _ hs
  have hmul : size * (tw / size) < size * (tr / size + 1) := by
    have : size * (tr / size + 1) = size * (tr / size) + size := by ring
    omega
  have hba : tw / size < tr / size + 1 := Nat.lt_of_mul_lt_mul_left hmul
  have hmul2 : size * (tw / size) ≤ size * (tr / size) :=
    Nat.mul_le_mul_left size (by omega)
  omega

lemma traceInv_step (size : ℕ) (hs : 0 < size) (t : Trace)
    (hI : TraceInv size t) (op : BufOp) : TraceInv size (t.step op) := by
  obtain ⟨hlen, hr, hw, hfirst, hbound⟩ := hI
  cases op with
  | out count =>
    obtain ⟨k, hk, hshort, hsam, hra, hwa, hfi⟩ := copy_out_facts t.buf count
    refine ⟨?_, ?_, ?_, ?_, ?_⟩
    · simp [Trace.step, hsam, hlen]
    · simp only [Trace.step, hra, hshort, hlen, hr]
      rw [Nat.mod_add_mod]
      congr 1
      omega
    · simp [Trace.step, hwa, hw]
    · simp only [Trace.step, hfi]
      exact hfirst
    · simp only [Trace.step]
      omega
  | inp src =>
    obtain ⟨k, hk, hshort, hsam, hwa, hra, hfi, hkf, hkw, hkg, hke⟩ :=
      copy_in_facts t.buf src
    have htw : t.totalWritten + (src.length - (t.buf.copy_in src).2)
        = t.totalWritten + k := by omega
    refine ⟨?_, ?_, ?_, ?_, ?_⟩
    · simp [Trace.step, hsam, hlen]
    · simp [Trace.step, hra, hr]
    · simp only [Trace.step, hwa, hlen, hw, htw]
      rw [Nat.mod_add_mod]
    · simp [Trace.step, hfi]
    · simp only [Trace.step, htw]
      by_cases hfib : t.buf.first = true
    -- first write: nothing written yet
      · have h0 := hfirst hfib
        have := hkf hfib
        omega
      · have hfib' : t.buf.first = false := by simp at hfib; exact hfib
        rcases lt_trichotomy t.buf.read_a t.buf.write_a with hlt | heq | hgt
        · have hkk := hkw hfib' hlt
          rw [hr, hw] at hlt
          rw [hw, hr, hlen] at hkk
          exact writer_bound_wrap size t.totalWritten t.totalRead k hs
            hbound hlt hkk
        · have hkk := hke hfib' heq
          omega
        · have hkk := hkg hfib' hgt
          rw [hr, hw] at hgt hkk
          exact writer_bound_gap size t.totalWritten t.totalRead k hs
            hbound hgt hkk

lemma traceInv_run (size : ℕ) (hs : 0 < size) (ops : List BufOp) :
    TraceInv size (Trace.run ops size) := by
  have hstart : TraceInv size
      ({ buf := .init size, totalWritten := 0, totalRead := 0 } : Trace) := by
    refine ⟨by simp [CircularBuffer.init], by simp [CircularBuffer.init],
      by simp [CircularBuffer.init], fun _ => rfl, by simp⟩
  rw [Trace.run]
  generalize ({ buf := .init size, totalWritten := 0, totalRead := 0 } :
    Trace) = t at hstart ⊢
  induction ops generalizing t with
  | nil => exact hstart
  | cons op ops ih =>
    rw [List.foldl_cons]
    exact ih _ (traceInv_step size hs t hstart op)

/-- C1 (amended): for every block size N and ring buffer of capacity
C = 2N, after any finite sequence of interleaved `copy_in` and `copy_out`
calls from the initial state, the producer never advances the write side
past the read side by more than C samples: the cumulative count written
never exceeds the cumulative count read plus C. -/
theorem trace_producer_bound (N : ℕ) (hN : 0 < N) (ops : List BufOp) :
    (Trace.run ops (2 * N)).totalWritten ≤
      (Trace.run ops (2 * N)).totalRead + 2 * N :=
  (traceInv_run (2 * N) (by omega) ops).2.2.2.2

/-- C1 witness: one write and one read on a capacity-2 buffer. -/
theorem trace_producer_bound_witness :
    0 < 1 ∧
    (Trace.run [BufOp.inp [3], BufOp.out 1] (2 * 1)).totalWritten ≤
      (Trace.run [BufOp.inp [3], BufOp.out 1] (2 * 1)).totalRead + 2 * 1 :=
  ⟨by decide, trace_producer_bound 1 (by decide) [BufOp.inp [3], BufOp.out 1]⟩

/-- C1 (counterexample): the consumer CAN advance past the producer: a
single `copy_out` of one sample from the freshly initialised capacity-2
buffer (block size N = 1) copies a never-written sample (the code treats
`read == write` as a full buffer), so the cumulative count read exceeds the
cumulative count written. -/
theorem trace_consumer_cex :
    ¬ ((Trace.run [BufOp.out 1] (2 * 1)).totalRead ≤
        (Trace.run [BufOp.out 1] (2 * 1)).totalWritten) := by
  decide
